import Mathlib

/-!
Verification of the Permit Lead Finder pipeline (`src/app_autofilter.py`):
a shallow embedding of the tabular ingestion, column mapping, lead filtering
and roofing aggregation logic, together with theorems checking the
natural-language specification against it.

Conventions of the embedding:
* a pandas cell is `Option String` (`none` models `NaN`); `str(x)` of a
  missing cell prints `"nan"`, which `cellStr` reproduces;
* dates are plain `(year, month, day)` triples of integers; the pandas
  date parser (`pd.to_datetime(_, errors="coerce")`, an external library)
  is a parameter `parse : String → Option SimpleDate`, `none` modelling `NaT`;
* a data frame is a list of rows, each row an association list from column
  name to cell value (column names are unique per table, per the data model).
-/

namespace PermitLead

/-! ### Character and string helpers (Python `str.lower` and `in`) -/

/-- Lowercasing of one character, as Python `str.lower` does for ASCII. -/
def lcChar (c : Char) : Char := c.toLower

/-- The list of characters of `s.lower()` in Python. -/
def lowerL (s : String) : List Char := s.toList.map lcChar

/-- Substring test on character lists: `containsSub n h` is Python `n in h`. -/
def containsSub (needle : List Char) : List Char → Bool
  | [] => needle.isEmpty
  | c :: rest => needle.isPrefixOf (c :: rest) || containsSub needle rest

/-! ### Roofing keywords (source lines 12, 93–101) -/

/-- ROOF_KEYWORDS from line 12 of the source. -/
def ROOF_KEYWORDS : List String :=
  ["roof", "re-roof", "reroof", "re roof", "roof repl", "roof mount"]

/-- Python `str(x)` of a cell: a missing value (pandas `NaN`) prints `"nan"`. -/
def cellStr : Option String → String
  | none => "nan"
  | some s => s

/-- The source's `has_roof` (lines 93–95): lowercase the stringified cell and
test each roofing keyword for substring occurrence. -/
def has_roof (x : Option String) : Bool :=
  ROOF_KEYWORDS.any (fun k => containsSub k.toList (lowerL (cellStr x)))

/-! ### Calendar dates and months remaining (source lines 85–91) -/

/-- A calendar date as (year, month, day), the fields a pandas Timestamp
exposes through `.year`, `.month`, `.day`. -/
structure SimpleDate where
  y : Int
  m : Int
  d : Int
deriving DecidableEq, Repr

/-- The source's `months_remaining` (lines 85–89): calendar-month difference,
minus one when the expiration day-of-month is before today's. -/
def months_remaining (today exp : SimpleDate) : Int :=
  (exp.y - today.y) * 12 + (exp.m - today.m) - (if exp.d < today.d then 1 else 0)

/-- The date exactly `k` calendar months (and 0 days) after `t`: the day of
month is kept, the month advances by `k` with year carry. -/
def addMonths (t : SimpleDate) (k : Int) : SimpleDate :=
  let total := t.m - 1 + k
  ⟨t.y + total / 12, total % 12 + 1, t.d⟩

/-- Gregorian leap-year test. -/
def isLeap (y : Int) : Bool := (y % 4 == 0 && y % 100 != 0) || (y % 400 == 0)

/-- Number of days of month `m` of year `y` in the Gregorian calendar. -/
def daysInMonth (y m : Int) : Int :=
  if m = 2 then (if isLeap y then 29 else 28)
  else if m = 4 ∨ m = 6 ∨ m = 9 ∨ m = 11 then 30 else 31

/-- The calendar day immediately before `x`. -/
def prevDay (x : SimpleDate) : SimpleDate :=
  if 1 < x.d then ⟨x.y, x.m, x.d - 1⟩
  else if 1 < x.m then ⟨x.y, x.m - 1, daysInMonth x.y (x.m - 1)⟩
  else ⟨x.y - 1, 12, 31⟩

theorem daysInMonth_bounds (y m : Int) : 28 ≤ daysInMonth y m ∧ daysInMonth y m ≤ 31 := by
  unfold daysInMonth
  split
  · split <;> omega
  · split <;> omega

theorem months_remaining_addMonths (today : SimpleDate) (k : Int) :
    months_remaining today (addMonths today k) = k := by
  simp only [months_remaining, addMonths]
  rw [if_neg (lt_irrefl _)]
  omega

theorem months_remaining_prevDay_addMonths (today : SimpleDate) (k : Int) :
    months_remaining today (prevDay (addMonths today k)) = k - 1 := by
  have hd := daysInMonth_bounds (today.y + (today.m - 1 + k) / 12)
    ((today.m - 1 + k) % 12 + 1 - 1)
  simp only [months_remaining, addMonths, prevDay]
  split_ifs <;> (try dsimp only at *) <;> omega

/-! ### Rows, column access, and the filter pipeline (source lines 80–121) -/

/-- A data-frame row: an association list from column name to cell value,
`none` modelling a missing (`NaN`) cell. -/
abbrev Row := List (String × Option String)

/-- Value of column `col` in `row`: the first binding of `col` (column names
are unique per table), `none` when the column is absent or the cell is
missing. -/
def getCell (row : Row) (col : String) : Option String :=
  match row with
  | [] => none
  | p :: rest => if p.1 == col then p.2 else getCell rest col

/-- The filter configuration surfaced at lines 69–74, 105–112: the mapped
expiration column, the optional status/description/permit-type mappings
(`none` models the "(none)" choice), the months threshold, the selected
status values, and the roofing-exclusion toggle. -/
structure FilterConfig where
  col_exp : String
  col_status : Option String
  col_desc : Option String
  col_type : Option String
  max_months : Int
  pick_status : List String
  exclude_roof : Bool

/-- Parsed expiration date of a row (line 83): look up the mapped column and
run the date parser; `none` models `NaT`. -/
def exp_dt (parse : String → Option SimpleDate) (cfg : FilterConfig) (row : Row) :
    Option SimpleDate :=
  (getCell row cfg.col_exp).bind parse

/-- The `_months_remaining` derived cell (line 91); `none` when the
expiration date is missing or unparseable. -/
def months_cell (parse : String → Option SimpleDate) (today : SimpleDate)
    (cfg : FilterConfig) (row : Row) : Option Int :=
  (exp_dt parse cfg row).map (months_remaining today)

/-- The date-window conjunct of the mask (line 115): pandas evaluates
`NaN <= max_months` as `False`, so a missing months value is excluded. -/
def monthsOk (parse : String → Option SimpleDate) (today : SimpleDate)
    (cfg : FilterConfig) (row : Row) : Bool :=
  match months_cell parse today cfg row with
  | none => false
  | some v => v ≤ cfg.max_months

/-- The status conjunct (lines 116–117): applied only when some statuses are
picked; `astype(str)` turns a missing cell into `"nan"`. When the status
column is unmapped the UI offers no statuses, so the conjunct is skipped. -/
def statusOk (cfg : FilterConfig) (row : Row) : Bool :=
  match cfg.pick_status, cfg.col_status with
  | [], _ => true
  | _, none => true
  | picks, some c => picks.contains (cellStr (getCell row c))

/-- The `_is_roofing` derived cell (lines 97–101): starts `False` and ORs in
`has_roof` of each mapped source column. -/
def is_roofing (cfg : FilterConfig) (row : Row) : Bool :=
  (match cfg.col_desc with
   | none => false
   | some c => has_roof (getCell row c)) ||
  (match cfg.col_type with
   | none => false
   | some c => has_roof (getCell row c))

/-- The roofing-exclusion conjunct (lines 118–119). -/
def roofOk (cfg : FilterConfig) (row : Row) : Bool :=
  !cfg.exclude_roof || !is_roofing cfg row

/-- The combined row mask (lines 114–119): conjunction of the three
predicates. -/
def rowMask (parse : String → Option SimpleDate) (today : SimpleDate)
    (cfg : FilterConfig) (row : Row) : Bool :=
  monthsOk parse today cfg row && statusOk cfg row && roofOk cfg row

/-- The lead set (line 121): the rows surviving the mask, in table order. -/
def leads (parse : String → Option SimpleDate) (today : SimpleDate)
    (cfg : FilterConfig) (rows : List Row) : List Row :=
  rows.filter (rowMask parse today cfg)

/-- The stand-alone date-window filter of the spec, keeping rows whose
months-remaining exists and is at most `t` (the `mask &=` conjunct of
line 115 applied on its own). -/
def dateWindowFilter (parse : String → Option SimpleDate) (today : SimpleDate)
    (col_exp : String) (t : Int) (rows : List Row) : List Row :=
  rows.filter (fun row =>
    match ((getCell row col_exp).bind parse).map (months_remaining today) with
    | none => false
    | some v => decide (v ≤ t))

/-- The months-threshold widget (line 105) accepts a value only between its
bounds `min_value=0` and `max_value=60`. -/
def max_months_allowed (t : Int) : Prop := 0 ≤ t ∧ t ≤ 60

instance : DecidablePred max_months_allowed := fun t =>
  inferInstanceAs (Decidable (0 ≤ t ∧ t ≤ 60))

/-! ### Claim theorems: C4, C6, C7, C8, C2 -/

/-- C4: months-remaining equals `(expYear - todayYear)*12 + (expMonth -
todayMonth)`, minus 1 exactly when `expDay < todayDay`; consequently an
expiration exactly `k` calendar months and 0 days after today yields `k`,
and the day before that boundary yields `k - 1`. -/
theorem C4_months_remaining_truncation (today : SimpleDate) (k : Int) :
    (∀ exp : SimpleDate, months_remaining today exp =
      (exp.y - today.y) * 12 + (exp.m - today.m) -
        (if exp.d < today.d then 1 else 0))
    ∧ months_remaining today (addMonths today k) = k
    ∧ months_remaining today (prevDay (addMonths today k)) = k - 1 :=
  ⟨fun _ => rfl, months_remaining_addMonths today k,
    months_remaining_prevDay_addMonths today k⟩

/-- C6: the lead set is a subsequence of the input table — every surviving
row occurs in the table, none is duplicated, and the original order is
kept. -/
theorem C6_leads_sublist (parse : String → Option SimpleDate)
    (today : SimpleDate) (cfg : FilterConfig) (rows : List Row) :
    (leads parse today cfg rows).Sublist rows :=
  List.filter_sublist rows

/-- C7: filtering is idempotent — running the filter chain on its own output
with the same configuration returns the same rows. -/
theorem C7_leads_idempotent (parse : String → Option SimpleDate)
    (today : SimpleDate) (cfg : FilterConfig) (rows : List Row) :
    leads parse today cfg (leads parse today cfg rows) =
      leads parse today cfg rows := by
  simp [leads, List.filter_filter]

/-- C8: a row whose expiration cell fails to parse (the parser, modelling
`errors="coerce"`, returns `none`) safely fails the months comparison: its
mask is false and the lead set is computed as if the row were absent;
every function involved is total, so nothing is raised. -/
theorem C8_unparseable_date_excluded (parse : String → Option SimpleDate)
    (today : SimpleDate) (cfg : FilterConfig) (row : Row) (rest : List Row)
    (h : (getCell row cfg.col_exp).bind parse = none) :
    rowMask parse today cfg row = false ∧
      leads parse today cfg (row :: rest) = leads parse today cfg rest := by
  have hm : monthsOk parse today cfg row = false := by
    simp [monthsOk, months_cell, exp_dt, h]
  refine ⟨?_, ?_⟩
  · simp [rowMask, hm]
  · simp [leads, List.filter_cons, rowMask, hm]

/-- C8 witness: a concrete row whose expiration cell does not parse is
dropped from the concrete lead set. -/
theorem C8_unparseable_date_excluded_witness :
    rowMask (fun _ => none) ⟨2025, 6, 1⟩
        ⟨"Exp", none, none, none, 4, [], true⟩ [("Exp", some "junk")] = false ∧
      leads (fun _ => none) ⟨2025, 6, 1⟩
        ⟨"Exp", none, none, none, 4, [], true⟩ [[("Exp", some "junk")]] =
        leads (fun _ => none) ⟨2025, 6, 1⟩
          ⟨"Exp", none, none, none, 4, [], true⟩ [] :=
  C8_unparseable_date_excluded (fun _ => none) ⟨2025, 6, 1⟩
    ⟨"Exp", none, none, none, 4, [], true⟩ [("Exp", some "junk")] [] rfl

/-- C2 counterexample: the claim says the threshold "may be configured to
any negative integer", but the widget of line 105 has `min_value=0`, so the
concrete threshold `-1` is not configurable. -/
theorem C2_counterexample_negative_threshold : ¬ max_months_allowed (-1) := by
  decide

/-- C2 as amended: the threshold is restricted to the widget's range 0–60,
and for every configurable threshold the date-window filter keeps exactly
the rows whose months-remaining exists and is at most the threshold. -/
theorem C2_amended_date_window (parse : String → Option SimpleDate)
    (today : SimpleDate) (col_exp : String) (t : Int) (rows : List Row)
    (r : Row) (_ht : max_months_allowed t) :
    r ∈ dateWindowFilter parse today col_exp t rows ↔
      r ∈ rows ∧ ∃ v, ((getCell r col_exp).bind parse).map
        (months_remaining today) = some v ∧ v ≤ t := by
  simp only [dateWindowFilter, List.mem_filter]
  constructor
  · rintro ⟨hr, hb⟩
    refine ⟨hr, ?_⟩
    cases hmc : ((getCell r col_exp).bind parse).map (months_remaining today) with
    | none => rw [hmc] at hb; simp at hb
    | some v =>
      rw [hmc] at hb
      exact ⟨v, rfl, by simpa using hb⟩
  · rintro ⟨hr, v, hv, hle⟩
    exact ⟨hr, by rw [hv]; simpa using hle⟩

/-- C2 witness: at the concrete threshold 4 (within 0–60) a concrete row
with 3 months remaining is kept by the date-window filter. -/
theorem C2_amended_date_window_witness :
    max_months_allowed 4 ∧
      ([("Exp", some "2025-09-15")] ∈
        dateWindowFilter (fun _ => some ⟨2025, 9, 15⟩) ⟨2025, 6, 1⟩ "Exp" 4
          [[("Exp", some "2025-09-15")]] ↔
        [("Exp", some "2025-09-15")] ∈ [[("Exp", some "2025-09-15")]] ∧
          ∃ v, ((getCell [("Exp", some "2025-09-15")] "Exp").bind
              (fun _ => some (⟨2025, 9, 15⟩ : SimpleDate))).map
            (months_remaining ⟨2025, 6, 1⟩) = some v ∧ v ≤ 4) :=
  ⟨by decide,
    C2_amended_date_window (fun _ => some ⟨2025, 9, 15⟩) ⟨2025, 6, 1⟩ "Exp" 4
      [[("Exp", some "2025-09-15")]] [("Exp", some "2025-09-15")] (by decide)⟩

/-! ### Column-mapper suggestion (source lines 62–77) -/

/-- The membership test of `guess`: Python `needle in c.lower()`. -/
def guessMatch (needle c : String) : Bool := containsSub needle.toList (lowerL c)

/-- The loop of `guess` (lines 62–67): `i` is the enumeration counter; on
no match the function returns the initial `idx = 0`, not the counter. -/
def guessAux (needle : String) : Nat → List String → Nat
  | _, [] => 0
  | i, c :: rest => if guessMatch needle c then i else guessAux needle (i + 1) rest

/-- The source's `guess(cols, needle)`. -/
def guess (cols : List String) (needle : String) : Nat := guessAux needle 0 cols

/-- Options offered for an optional field (lines 71–77): `"(none)"`
prepended to the source headers. -/
def optionalChoices (cols : List String) : List String := "(none)" :: cols

/-- The header suggested for an optional canonical field: entry
`guess(cols, needle) + 1` of the option list, as in
`st.selectbox(..., options=["(none)"]+cols, index=guess(cols, needle)+1)`. -/
def suggestedOptional (cols : List String) (needle : String) : String :=
  (optionalChoices cols).getD (guess cols needle + 1) ""

theorem guessAux_eq (needle : String) : ∀ (i : Nat) (l : List String),
    guessAux needle i l =
      if l.any (guessMatch needle) then i + l.findIdx (guessMatch needle) else 0
  | _, [] => by simp [guessAux]
  | i, c :: rest => by
    have hrec := guessAux_eq needle (i + 1) rest
    by_cases h : guessMatch needle c
    · simp [guessAux, h, List.findIdx_cons]
    · simp [guessAux, h, List.findIdx_cons, hrec]
      split <;> omega

/-! ### Claim theorems: C5, C3 -/

/-- C5: the roofing flag is true exactly when some fixed roofing keyword is
a case-insensitive substring of the row value of a mapped source column
(Description or Permit-Type); an unmapped field contributes false, and a
missing cell (stringified to "nan") also contributes false. All functions
involved are total, so the computation never raises. -/
theorem C5_roofing_flag (cfg : FilterConfig) (row : Row) :
    (is_roofing cfg row = true ↔
      ∃ c : String, (cfg.col_desc = some c ∨ cfg.col_type = some c) ∧
        ∃ k ∈ ROOF_KEYWORDS,
          containsSub k.toList (lowerL (cellStr (getCell row c))) = true)
    ∧ has_roof none = false := by
  refine ⟨?_, by decide⟩
  have hq : ∀ (m : Option String), ((match m with
      | none => false
      | some c => has_roof (getCell row c)) = true ↔
      ∃ c, m = some c ∧ ∃ k ∈ ROOF_KEYWORDS,
        containsSub k.toList (lowerL (cellStr (getCell row c))) = true) := by
    intro m
    cases m <;> simp [has_roof, List.any_eq_true]
  rw [is_roofing, Bool.or_eq_true, hq cfg.col_desc, hq cfg.col_type]
  constructor
  · rintro (⟨c, hm, k, hk, hs⟩ | ⟨c, hm, k, hk, hs⟩)
    · exact ⟨c, Or.inl hm, k, hk, hs⟩
    · exact ⟨c, Or.inr hm, k, hk, hs⟩
  · rintro ⟨c, hm | hm, k, hk, hs⟩
    · exact Or.inl ⟨c, hm, k, hk, hs⟩
    · exact Or.inr ⟨c, hm, k, hk, hs⟩

/-- C3 counterexample: with source headers ["Foo", "Bar"], no header matches
the Description keyword "desc", yet the suggested mapping is the first
source column "Foo", not "(none)" — refuting the claim that an unmatched
field is suggested as "none". -/
theorem C3_counterexample_no_match_first_column :
    (["Foo", "Bar"].all (fun c => !guessMatch "desc" c)) = true ∧
      suggestedOptional ["Foo", "Bar"] "desc" = "Foo" ∧
      ¬ suggestedOptional ["Foo", "Bar"] "desc" = "(none)" := by
  decide

/-- C3 as amended: the suggestion selects the first header whose lowercased
text contains the field's keyword; when no header matches, `guess` returns
index 0, so the field is suggested as the first source column (for optional
fields the entry after "(none)"), not as "none". -/
theorem C3_amended_first_match_or_zero (cols : List String) (needle : String) :
    (cols.all (fun c => !guessMatch needle c) = true → guess cols needle = 0)
    ∧ (∀ i, i < cols.length → guessMatch needle (cols.getD i "") = true →
        guess cols needle ≤ i ∧
        guessMatch needle (cols.getD (guess cols needle) "") = true)
    ∧ (∀ j, j < guess cols needle → guessMatch needle (cols.getD j "") = false) := by
  have hg : guess cols needle =
      if cols.any (guessMatch needle) then cols.findIdx (guessMatch needle) else 0 := by
    rw [guess, guessAux_eq]
    split <;> omega
  refine ⟨?_, ?_, ?_⟩
  · intro hall
    have hany : cols.any (guessMatch needle) = false := by
      simp only [List.all_eq_true, Bool.not_eq_true'] at hall
      simp only [List.any_eq_false, Bool.not_eq_true]
      exact hall
    rw [hg, hany]
    simp
  · intro i hi hmi
    have hmem : (cols.getD i "") ∈ cols := by
      rw [List.getD_eq_getElem?_getD, List.getElem?_eq_getElem hi]
      exact List.getElem_mem hi
    have hany : cols.any (guessMatch needle) = true :=
      List.any_eq_true.mpr ⟨_, hmem, hmi⟩
    rw [hg, if_pos hany]
    have hlt : cols.findIdx (guessMatch needle) < cols.length :=
      List.findIdx_lt_length_of_exists ⟨_, hmem, hmi⟩
    constructor
    · by_contra hgt
      push_neg at hgt
      have := List.not_of_lt_findIdx hgt
      rw [List.getD_eq_getElem?_getD, List.getElem?_eq_getElem hi] at hmi
      simp_all
    · rw [List.getD_eq_getElem?_getD, List.getElem?_eq_getElem hlt]
      simpa using @List.findIdx_getElem _ _ _ hlt
  · intro j hj
    rw [hg] at hj
    by_cases hany : cols.any (guessMatch needle) = true
    · rw [if_pos hany] at hj
      have hjlen : j < cols.length :=
        lt_of_lt_of_le hj (List.findIdx_le_length (guessMatch needle))
      have := List.not_of_lt_findIdx hj
      rw [List.getD_eq_getElem?_getD, List.getElem?_eq_getElem hjlen]
      simpa using this
    · rw [if_neg hany] at hj
      omega

/-- C3 witness: concrete applications of the amended theorem — on headers
with no match `guess` returns 0; on ["Status", "Work Description"] the
Description keyword selects index 1, the first (and only) match. -/
theorem C3_amended_first_match_or_zero_witness :
    guess ["Foo"] "desc" = 0 ∧
      guess ["Status", "Work Description"] "desc" ≤ 1 ∧
      guessMatch "desc"
        (["Status", "Work Description"].getD
          (guess ["Status", "Work Description"] "desc") "") = true :=
  ⟨(C3_amended_first_match_or_zero ["Foo"] "desc").1 (by decide),
    ((C3_amended_first_match_or_zero ["Status", "Work Description"] "desc").2.1
      1 (by decide) (by decide)).1,
    ((C3_amended_first_match_or_zero ["Status", "Work Description"] "desc").2.1
      1 (by decide) (by decide)).2⟩

/-! ### County tagging (source line 56) -/

/-- Row-level effect of `df["County"] = county`: when a County column exists
its cell is overwritten, otherwise a County column is appended. -/
def setCountyRow (county : String) (row : Row) : Row :=
  if row.any (fun p => p.1 == "County") then
    row.map (fun p => if p.1 == "County" then ("County", some county) else p)
  else row ++ [("County", some county)]

/-- The county tagging of line 56 applied to the whole table. -/
def setCounty (county : String) (rows : List Row) : List Row :=
  rows.map (setCountyRow county)

theorem getCell_map_county (county : String) :
    ∀ (row : Row), row.any (fun p => p.1 == "County") = true →
      getCell (row.map (fun p =>
        if p.1 == "County" then ("County", some county) else p)) "County" =
        some county
  | [], h => by simp at h
  | p :: rest, h => by
    by_cases hp1 : p.1 = "County"
    · simp [getCell, hp1]
    · have hrest : rest.any (fun q => q.1 == "County") = true := by
        simpa [List.any_cons, hp1] using h
      have hrec := getCell_map_county county rest hrest
      simp [getCell, hp1]
      simpa using hrec

theorem getCell_append_county (county : String) :
    ∀ (row : Row), row.any (fun p => p.1 == "County") = false →
      getCell (row ++ [("County", some county)]) "County" = some county
  | [], _ => by simp [getCell]
  | p :: rest, h => by
    have hp1 : ¬ p.1 = "County" := by
      intro hc
      simp [List.any_cons, hc] at h
    have hrest : rest.any (fun q => q.1 == "County") = false := by
      simpa [List.any_cons, hp1] using h
    simp [getCell, hp1, getCell_append_county county rest hrest]

theorem getCell_map_other (county col : String) (hcol : col ≠ "County") :
    ∀ (row : Row),
      getCell (row.map (fun p =>
        if p.1 == "County" then ("County", some county) else p)) col =
        getCell row col
  | [] => rfl
  | p :: rest => by
    have hrec := getCell_map_other county col hcol rest
    have hCc : ¬ ("County" : String) = col := fun hcc => hcol hcc.symm
    by_cases hp1 : p.1 = "County"
    · simp [getCell, hp1, hCc]
      simpa using hrec
    · by_cases hq : p.1 = col
      · simp [getCell, hp1, hq, hcol]
      · simp [getCell, hp1, hq]
        simpa using hrec

theorem getCell_append_other (county col : String) (hcol : col ≠ "County") :
    ∀ (row : Row),
      getCell (row ++ [("County", some county)]) col = getCell row col
  | [] => by
    have hCc : ¬ ("County" : String) = col := fun hcc => hcol hcc.symm
    simp [getCell, hCc]
  | p :: rest => by
    have hrec := getCell_append_other county col hcol rest
    simp [getCell, hrec]

theorem getCell_setCountyRow (county : String) (row : Row) :
    getCell (setCountyRow county row) "County" = some county ∧
      ∀ col, col ≠ "County" →
        getCell (setCountyRow county row) col = getCell row col := by
  unfold setCountyRow
  by_cases h : row.any (fun p => p.1 == "County") = true
  · rw [if_pos h]
    exact ⟨getCell_map_county county row h,
      fun col hcol => getCell_map_other county col hcol row⟩
  · have hf : row.any (fun p => p.1 == "County") = false := by
      simp only [Bool.not_eq_true] at h
      exact h
    rw [if_neg h]
    exact ⟨getCell_append_county county row hf,
      fun col hcol => getCell_append_other county col hcol row⟩

/-! ### Claim theorem: C10 -/

/-- C10: after `df["County"] = county`, every row of the table has its County
cell equal to the selected county — an existing County column is overwritten
— while each row's value in every other column is unchanged. -/
theorem C10_county_overwrites_and_frames (county : String) (rows : List Row) :
    (∀ row ∈ setCounty county rows, getCell row "County" = some county)
    ∧ ∀ col, col ≠ "County" →
        (setCounty county rows).map (fun r => getCell r col) =
          rows.map (fun r => getCell r col) := by
  constructor
  · intro row hrow
    obtain ⟨r0, _, rfl⟩ := List.mem_map.mp hrow
    exact (getCell_setCountyRow county r0).1
  · intro col hcol
    rw [setCounty, List.map_map]
    exact List.map_congr_left fun r _ => (getCell_setCountyRow county r).2 col hcol

/-- C10 witness: tagging a concrete two-row table (one row already carrying
a County column with a different value) sets County on each output row and
leaves the Addr column untouched. -/
theorem C10_county_overwrites_and_frames_witness :
    getCell (setCountyRow "Placer" [("County", some "Old"), ("Addr", some "A")])
        "County" = some "Placer" ∧
      (setCounty "Placer"
          [[("County", some "Old"), ("Addr", some "A")], [("B", none)]]).map
        (fun r => getCell r "Addr") =
        [[("County", some "Old"), ("Addr", some "A")], [("B", none)]].map
          (fun r => getCell r "Addr") :=
  ⟨(C10_county_overwrites_and_frames "Placer"
      [[("County", some "Old"), ("Addr", some "A")], [("B", none)]]).1
      (setCountyRow "Placer" [("County", some "Old"), ("Addr", some "A")])
      (by decide),
    (C10_county_overwrites_and_frames "Placer"
      [[("County", some "Old"), ("Addr", some "A")], [("B", none)]]).2
      "Addr" (by decide)⟩

/-! ### PDF fixed-width fallback (stage 2 of the ingestion strategy)

In `src/app_autofilter.py` the `read_any` PDF branch (lines 33–53) only runs
stage-1 structured extraction and stops with an error when no table is
found; the fixed-width fallback the spec describes lives in a sibling
script of this repository that is not present under `src/`. The fallback is
therefore modelled from the spec's own description (§4.4 and scenario C). -/

/-- Modelled from the spec: one step of splitting a line "into columns on
runs of ≥2 consecutive whitespace characters". State: completed columns,
current column (reversed), count of pending whitespace characters. A single
interior whitespace stays inside the column; two or more end it; leading
and trailing whitespace is dropped. -/
def splitStep (st : List (List Char) × List Char × Nat) (c : Char) :
    List (List Char) × List Char × Nat :=
  match st with
  | (toks, cur, ws) =>
    if c.isWhitespace then (toks, cur, ws + 1)
    else if cur.isEmpty then (toks, [c], 0)
    else if 2 ≤ ws then (toks ++ [cur.reverse], [c], 0)
    else if ws = 1 then (toks, c :: ' ' :: cur, 0)
    else (toks, c :: cur, 0)

/-- Modelled from the spec: split a text line into columns on runs of at
least 2 consecutive whitespace characters (the fallback's column splitter,
absent from `src/`). -/
def splitCols (s : String) : List String :=
  match s.toList.foldl splitStep ([], [], 0) with
  | (toks, cur, _) =>
    (if cur.isEmpty then toks else toks ++ [cur.reverse]).map
      (fun cs => String.mk cs)

/-- Modelled from the spec: one step of whitespace word-splitting, used for
recognising "Page X of Y" footers. -/
def wordStep (st : List (List Char) × List Char) (c : Char) :
    List (List Char) × List Char :=
  if c.isWhitespace then
    (if st.2.isEmpty then st else (st.1 ++ [st.2.reverse], []))
  else (st.1, c :: st.2)

/-- Modelled from the spec: the whitespace-separated words of a line. -/
def wordsOf (s : String) : List String :=
  match s.toList.foldl wordStep ([], []) with
  | (toks, cur) =>
    (if cur.isEmpty then toks else toks ++ [cur.reverse]).map
      (fun cs => String.mk cs)

/-- A non-empty all-digit string. -/
def isDigits (s : String) : Bool := !s.isEmpty && s.toList.all Char.isDigit

/-- Modelled from the spec: a page-number footer line of the form
"Page X of Y", which the fallback skips. -/
def isFooterLine (s : String) : Bool :=
  match wordsOf s with
  | [p, x, o, y] => p == "Page" && o == "of" && isDigits x && isDigits y
  | _ => false

/-- Modelled from the spec: header detection by co-occurrence of "permit"
with "issued" or "date" in the lowercased line. -/
def isHeaderLine (s : String) : Bool :=
  containsSub "permit".toList (lowerL s) &&
    (containsSub "issued".toList (lowerL s) ||
      containsSub "date".toList (lowerL s))

/-- Modelled from the spec: a data row starts with a permit-number pattern —
letters, two digits, a hyphen, then at least one digit. The spec words it
"two letters + two digits + hyphen + digits" but its own example
`BLD24-02314` carries three letters, so the letter prefix is read as "at
least two letters". -/
def startsWithPermitNo (s : String) : Bool :=
  let cs := s.toList
  (2 ≤ (cs.takeWhile Char.isAlpha).length) &&
    (match cs.dropWhile Char.isAlpha with
     | c :: d :: e :: f :: _ => c.isDigit && d.isDigit && e == '-' && f.isDigit
     | _ => false)

/-- Modelled from the spec: the fixed-width fallback, absent from `src/`.
Footer lines are skipped; a header line is detected by keyword
co-occurrence and fixes the column count; a line is accepted as a data row
only if it starts with the permit-number pattern and splits into exactly
the header's number of columns (mismatched rows are silently dropped).
When no header is detected, positional `col_N` names are synthesized from
the first data row's width. -/
def fallbackTable (pageLines : List String) :
    List String × List (List String) :=
  let lines := pageLines.filter (fun l => !isFooterLine l)
  match lines.find? isHeaderLine with
  | some h =>
    let header := splitCols h
    (header, lines.filterMap (fun l =>
      if startsWithPermitNo l then
        let cs := splitCols l
        if cs.length = header.length then some cs else none
      else none))
  | none =>
    let rows := (lines.filter startsWithPermitNo).map splitCols
    match rows with
    | [] => ([], [])
    | r :: _ =>
      ((List.range r.length).map (fun i => "col_" ++ toString (i + 1)),
        rows.filter (fun x => x.length = r.length))

/-! ### Claim theorem: C1 -/

/-- C1: on a page with no grid-detectable table, the fallback skips the
"Page 1 of 2" footer, detects the header line by the
co-occurrence of "Permit" and "Issued", splits on runs of ≥2 whitespace
characters, and accepts the line starting with permit number BLD24-02314,
producing exactly one data row of 4 columns matching the header's 4. -/
theorem C1_fixed_width_fallback_scenario :
    fallbackTable
        ["Permit Number  Issued  Contractor  Site Address",
         "BLD24-02314  06/05/2025  Jane Doe  123 Main St",
         "Page 1 of 2"] =
      (["Permit Number", "Issued", "Contractor", "Site Address"],
        [["BLD24-02314", "06/05/2025", "Jane Doe", "123 Main St"]]) ∧
      isFooterLine "Page 1 of 2" = true ∧
      isHeaderLine "Permit Number  Issued  Contractor  Site Address" = true ∧
      startsWithPermitNo "BLD24-02314  06/05/2025  Jane Doe  123 Main St" = true ∧
      (splitCols "BLD24-02314  06/05/2025  Jane Doe  123 Main St").length = 4 := by
  decide

/-! ### Contractor ranking (source lines 163–166)

The source builds `top_con` by `roof.groupby(col_contr, dropna=False).size()`
— whose default `sort=True` orders the groups by ascending key — then
`.sort_values(ascending=False)` on the counts, then `.head(20)`. Sorting is
modelled with the stable `List.insertionSort`; grouping with an
encounter-order tally. -/

/-- Lexicographic (code-point) order on character lists, the order pandas
uses for string group keys. -/
def lexLe : List Char → List Char → Bool
  | [], _ => true
  | _ :: _, [] => false
  | a :: as, b :: bs => if a < b then true else if b < a then false else lexLe as bs

/-- Ascending group-key order used by `groupby(sort=True)`. -/
def keyLE (a b : String × Nat) : Prop := lexLe a.1.toList b.1.toList = true

/-- Descending count order used by `sort_values(ascending=False)`. -/
def cntGE (a b : String × Nat) : Prop := b.2 ≤ a.2

instance : DecidableRel keyLE := fun a b =>
  inferInstanceAs (Decidable (lexLe a.1.toList b.1.toList = true))

instance : DecidableRel cntGE := fun a b =>
  inferInstanceAs (Decidable (b.2 ≤ a.2))

/-- One step of the grouping: a seen key gets its count incremented, an
unseen key is appended, preserving encounter order. -/
def bump (acc : List (String × Nat)) (k : String) : List (String × Nat) :=
  if acc.any (fun p => p.1 == k) then
    acc.map (fun p => if p.1 == k then (p.1, p.2 + 1) else p)
  else acc ++ [(k, 1)]

/-- Group sizes of the contractor values, keyed by value, in first-encounter
order (the contents of `groupby(col_contr).size()` before key sorting). -/
def tally (vals : List String) : List (String × Nat) := vals.foldl bump []

/-- The source's `top_con` pipeline (lines 163–166): group sizes, key-sorted
by `groupby(sort=True)`, then stably sorted by descending count, then
truncated by `head(20)`. -/
def top_con (vals : List String) : List (String × Nat) :=
  (List.insertionSort cntGE (List.insertionSort keyLE (tally vals))).take 20

/-- The ranking as the claim words it: groups in first-encountered order,
stably sorted by descending count (so ties keep first-encounter order),
truncated to 20. -/
def rankFirstSeen (vals : List String) : List (String × Nat) :=
  (List.insertionSort cntGE (tally vals)).take 20

theorem lexLe_total : ∀ as bs : List Char, lexLe as bs = true ∨ lexLe bs as = true
  | [], _ => Or.inl rfl
  | _ :: _, [] => Or.inr rfl
  | a :: as, b :: bs => by
    rcases lt_trichotomy a b with h | h | h
    · left
      simp [lexLe, h]
    · subst h
      rcases lexLe_total as bs with ih | ih
      · left
        simp [lexLe, lt_irrefl, ih]
      · right
        simp [lexLe, lt_irrefl, ih]
    · right
      simp [lexLe, h]

theorem lexLe_trans : ∀ as bs cs : List Char,
    lexLe as bs = true → lexLe bs cs = true → lexLe as cs = true
  | [], _, _ => fun _ _ => rfl
  | _ :: _, [], _ => fun h _ => by simp [lexLe] at h
  | _ :: _, _ :: _, [] => fun _ h => by simp [lexLe] at h
  | a :: as, b :: bs, c :: cs => fun h1 h2 => by
    by_cases hab : a < b
    · by_cases hbc : b < c
      · simp [lexLe, lt_trans hab hbc]
      · by_cases hcb : c < b
        · simp [lexLe, hbc, hcb] at h2
        · have hbceq : b = c := le_antisymm (not_lt.mp hcb) (not_lt.mp hbc)
          subst hbceq
          simp [lexLe, hab]
    · by_cases hba : b < a
      · simp [lexLe, hab, hba] at h1
      · have habeq : a = b := le_antisymm (not_lt.mp hba) (not_lt.mp hab)
        subst habeq
        simp only [lexLe, lt_irrefl, if_false] at h1 h2 ⊢
        by_cases hac : a < c
        · simp [hac]
        · by_cases hca : c < a
          · simp [hac, hca] at h2
          · simp only [hac, hca, if_false] at h2 ⊢
            exact lexLe_trans as bs cs h1 h2

instance : IsTotal (String × Nat) keyLE :=
  ⟨fun a b => lexLe_total a.1.toList b.1.toList⟩

instance : IsTrans (String × Nat) keyLE :=
  ⟨fun a b c => lexLe_trans a.1.toList b.1.toList c.1.toList⟩

instance : IsTotal (String × Nat) cntGE :=
  ⟨fun a b => (le_total b.2 a.2).elim Or.inl Or.inr⟩

instance : IsTrans (String × Nat) cntGE :=
  ⟨fun _ _ _ h1 h2 => le_trans h2 h1⟩

theorem pair_sublist_or {α : Type} {a b : α} :
    ∀ {l : List α}, a ∈ l → b ∈ l → a ≠ b →
      [a, b].Sublist l ∨ [b, a].Sublist l := by
  intro l
  induction l with
  | nil => intro ha; simp at ha
  | cons c t ih =>
    intro ha hb hne
    rcases List.mem_cons.mp ha with rfl | ha'
    · have hb' : b ∈ t := by
        rcases List.mem_cons.mp hb with rfl | hb'
        · exact absurd rfl hne
        · exact hb'
      exact Or.inl (List.Sublist.cons₂ _ (List.singleton_sublist.mpr hb'))
    · rcases List.mem_cons.mp hb with rfl | hb'
      · exact Or.inr (List.Sublist.cons₂ _ (List.singleton_sublist.mpr ha'))
      · rcases ih ha' hb' hne with h | h
        · exact Or.inl (h.cons c)
        · exact Or.inr (h.cons c)

theorem sublist_pair_antisymm {α : Type} {a b : α} :
    ∀ {l : List α}, l.Nodup → [a, b].Sublist l → [b, a].Sublist l → a = b := by
  intro l
  induction l with
  | nil => intro _ h1; exact absurd h1 (by simp)
  | cons c t ih =>
    intro hnd h1 h2
    cases h1 with
    | cons _ h1' =>
      cases h2 with
      | cons _ h2' => exact ih (List.nodup_cons.mp hnd).2 h1' h2'
      | cons₂ _ h2' =>
        have hbt : b ∈ t := h1'.subset (by simp)
        exact absurd hbt (List.nodup_cons.mp hnd).1
    | cons₂ _ h1' =>
      cases h2 with
      | cons _ h2' =>
        have hat : a ∈ t := h2'.subset (by simp)
        exact absurd hat (List.nodup_cons.mp hnd).1
      | cons₂ _ _ => rfl

theorem bump_keys (acc : List (String × Nat)) (k : String) :
    (bump acc k).map Prod.fst =
      if acc.any (fun p => p.1 == k) then acc.map Prod.fst
      else acc.map Prod.fst ++ [k] := by
  unfold bump
  split
  · simp only [List.map_map]
    exact List.map_congr_left fun p _ => by
      by_cases hp : p.1 = k <;> simp [Function.comp, hp]
  · simp

theorem tally_keys_nodup (vals : List String) :
    ((tally vals).map Prod.fst).Nodup := by
  suffices h : ∀ (vs : List String) (acc : List (String × Nat)),
      (acc.map Prod.fst).Nodup → (((vs.foldl bump acc)).map Prod.fst).Nodup by
    exact h vals [] (by simp)
  intro vs
  induction vs with
  | nil => intro acc h; simpa using h
  | cons v t ih =>
    intro acc h
    rw [List.foldl_cons]
    apply ih
    rw [bump_keys]
    split
    · exact h
    · rename_i hany
      have hnotin : v ∉ acc.map Prod.fst := by
        intro hmem
        obtain ⟨p, hp, hpv⟩ := List.mem_map.mp hmem
        exact hany (List.any_eq_true.mpr ⟨p, hp, by simp [hpv]⟩)
      simp only [List.nodup_append, List.nodup_cons, List.not_mem_nil,
        not_false_iff, List.nodup_nil, and_true, true_and]
      constructor
      · exact h
      · intro x hx
        simp only [List.mem_singleton]
        intro hxv
        subst hxv
        exact hnotin hx

/-! ### Claim theorems: C9 -/

/-- C9 counterexample: contractors first encountered in the order "b", "a",
each with one row. The code key-sorts the groups before the count sort, so
the ranking lists "a" before "b", while the claim's first-encountered tie
order would list "b" first. -/
theorem C9_counterexample_tie_order :
    top_con ["b", "a"] = [("a", 1), ("b", 1)] ∧
      rankFirstSeen ["b", "a"] = [("b", 1), ("a", 1)] ∧
      top_con ["b", "a"] ≠ rankFirstSeen ["b", "a"] := by
  decide

/-- C9 as amended: the ranking has at most 20 entries and is ordered by
descending count, with ties between equal counts broken by ascending
contractor key (the `groupby(sort=True)` key order) rather than by
first-encountered order. -/
theorem C9_amended_ranking (vals : List String) :
    (top_con vals).length ≤ 20 ∧
      (top_con vals).Pairwise (fun a b => b.2 ≤ a.2 ∧
        (b.2 = a.2 → lexLe a.1.toList b.1.toList = true)) := by
  refine ⟨List.length_take_le 20 _, ?_⟩
  have hTkeys : ((tally vals).map Prod.fst).Nodup := tally_keys_nodup vals
  have hpermS1 : List.Perm (List.insertionSort keyLE (tally vals))
      (tally vals) :=
    List.perm_insertionSort keyLE (tally vals)
  have hpermS2 : List.Perm
      (List.insertionSort cntGE (List.insertionSort keyLE (tally vals)))
      (List.insertionSort keyLE (tally vals)) :=
    List.perm_insertionSort cntGE _
  have hS1keys : ((List.insertionSort keyLE (tally vals)).map Prod.fst).Nodup :=
    ((hpermS1.map Prod.fst).nodup_iff).mpr hTkeys
  have hS2keys : ((List.insertionSort cntGE
      (List.insertionSort keyLE (tally vals))).map Prod.fst).Nodup :=
    ((hpermS2.map Prod.fst).nodup_iff).mpr hS1keys
  have hS2nodup : (List.insertionSort cntGE
      (List.insertionSort keyLE (tally vals))).Nodup :=
    hS2keys.of_map
  have hS1sorted : (List.insertionSort keyLE (tally vals)).Pairwise keyLE :=
    List.sorted_insertionSort keyLE (tally vals)
  have hS2sorted : (List.insertionSort cntGE
      (List.insertionSort keyLE (tally vals))).Pairwise cntGE :=
    List.sorted_insertionSort cntGE _
  have hS2ne : (List.insertionSort cntGE
      (List.insertionSort keyLE (tally vals))).Pairwise
      (fun a b => a.1 ≠ b.1) := by
    rw [← List.pairwise_map]
    exact List.Pairwise.imp (fun h => h) hS2keys
  have hP : (List.insertionSort cntGE
      (List.insertionSort keyLE (tally vals))).Pairwise
      (fun a b => b.2 ≤ a.2 ∧
        (b.2 = a.2 → lexLe a.1.toList b.1.toList = true)) := by
    rw [List.pairwise_iff_forall_sublist]
    intro a b hab
    refine ⟨List.pairwise_iff_forall_sublist.mp hS2sorted hab, ?_⟩
    intro hcnt
    have hne1 : a.1 ≠ b.1 := List.pairwise_iff_forall_sublist.mp hS2ne hab
    have hneab : a ≠ b := fun h => hne1 (congrArg Prod.fst h)
    have haS1 : a ∈ List.insertionSort keyLE (tally vals) :=
      hpermS2.subset (hab.subset (by simp))
    have hbS1 : b ∈ List.insertionSort keyLE (tally vals) :=
      hpermS2.subset (hab.subset (by simp))
    rcases pair_sublist_or haS1 hbS1 hneab with h1 | h2
    · exact List.pairwise_iff_forall_sublist.mp hS1sorted h1
    · have hba : cntGE b a := le_of_eq hcnt.symm
      have h3 : [b, a].Sublist (List.insertionSort cntGE
          (List.insertionSort keyLE (tally vals))) :=
        List.pair_sublist_insertionSort hba h2
      exact absurd (sublist_pair_antisymm hS2nodup hab h3) hneab
  exact hP.sublist (List.take_sublist 20 _)

end PermitLead
